import Mathlib

/-!
Shallow embedding of `src/task/t1/no_grounding.py`.

The script is a two-stage prompt pipeline: it reads a query, fetches all
user records, splits them into batches of 100, renders every batch as an
indented text block, issues one model call per batch, filters out the
"NO_MATCHES_FOUND" sentinel results, and (when anything survives) issues a
single final synthesis call.  A process-wide `TokenTracker` accumulates the
token usage reported by every model call.

Python strings are modelled by Lean `String`; Python lists by `List`; a user
record (a Python `dict`, which preserves insertion order) by an ordered list
of key/value pairs, each value standing for its `str()` rendering, because
the f-string on line 86 stringifies the value.  The model endpoint is an
oracle parameter `respond : ModelCall → String`.
-/

namespace NoGrounding

/-- Whitespace recognised by Python `str.strip()` (the ASCII whitespace
characters: space, tab, newline, carriage return, vertical tab, form feed). -/
def pyIsSpace (c : Char) : Bool :=
  c = ' ' || c = '\t' || c = '\n' || c = '\r' || c = '\x0b' || c = '\x0c'

/-- Model of Python `str.strip()`: drop leading and trailing whitespace. -/
def pyStrip (s : String) : String :=
  ⟨((s.data.dropWhile pyIsSpace).reverse.dropWhile pyIsSpace).reverse⟩

/-- Model of Python `range(start, stop, step)` as used on line 121; a
non-positive step yields `[]` (Python raises on `step = 0`; the script only
uses `step = batch_size = 100`). -/
def pyRange (start stop step : Nat) : List Nat :=
  if _h : start < stop ∧ 0 < step then
    start :: pyRange (start + step) stop step
  else
    []
termination_by stop - start
decreasing_by omega

/-- Model of the Python slice `l[i : i + n]`. -/
def pySlice (l : List α) (i n : Nat) : List α :=
  (l.drop i).take n

/-- Line 120: `batch_size = 100`. -/
def batch_size : Nat := 100

/-- Line 121: `user_batches = [users[i:i + batch_size] for i in range(0, len(users), batch_size)]`. -/
def user_batches (users : List α) (bs : Nat) : List (List α) :=
  (pyRange 0 users.length bs).map (fun i => pySlice users i bs)

/-- Reference chunking function used to reason about `user_batches`:
repeatedly split off the first `bs` elements. -/
def chunks (bs : Nat) (l : List α) : List (List α) :=
  if _h : bs = 0 then
    []
  else
    match l with
    | [] => []
    | x :: xs => (x :: xs).take bs :: chunks bs ((x :: xs).drop bs)
termination_by l.length
decreasing_by
  rw [List.length_drop]
  simp only [List.length_cons]
  omega

/-- A user record: ordered key/value pairs (Python dicts iterate in insertion
order); the value is its `str()` rendering. -/
abbrev UserRecord := List (String × String)

/-- The lines contributed by one record in `join_context` (lines 84-86):
a `User:` header then one `  key: value` line per field, in field order. -/
def user_lines (user : UserRecord) : List String :=
  "User:" :: user.map (fun kv => "  " ++ kv.1 ++ ": " ++ kv.2)

/-- Lines 70-87, `join_context`: an empty batch yields the fixed sentinel;
otherwise the per-record lines are accumulated in a loop and joined with
newlines (`"\n".join(lines)` is `String.intercalate "\n"`). -/
def join_context (context : List UserRecord) : String :=
  if context.isEmpty then
    "No user data available."
  else
    String.intercalate "\n"
      (context.foldl (fun lines user => lines ++ user_lines user) [])

/-- Lines 12-23: the per-batch search instruction. -/
def BATCH_SYSTEM_PROMPT : String :=
  "You are a user search assistant. Your task is to find users from the provided list that match the search criteria.\n\nINSTRUCTIONS:\n1. Analyze the user question to understand what attributes/characteristics are being searched for\n2. Examine each user in the context and determine if they match the search criteria\n3. For matching users, extract and return their complete information\n4. Be inclusive - if a user partially matches or could potentially match, include them\n\nOUTPUT FORMAT:\n- If you find matching users: Return their full details exactly as provided, maintaining the original format\n- If no users match: Respond with exactly \"NO_MATCHES_FOUND\"\n- If uncertain about a match: Include the user with a note about why they might match"

/-- Lines 25-32: the final synthesis instruction. -/
def FINAL_SYSTEM_PROMPT : String :=
  "You are a helpful assistant that provides comprehensive answers based on user search results.\n\nINSTRUCTIONS:\n1. Review all the search results from different user batches\n2. Combine and deduplicate any matching users found across batches\n3. Present the information in a clear, organized manner\n4. If multiple users match, group them logically\n5. If no users match, explain what was searched for and suggest alternatives"

/-- Lines 34-38 and 132: `USER_PROMPT.format(context=..., query=...)`
(note the trailing space after `SEARCH QUERY: `). -/
def format_user_prompt (context query : String) : String :=
  "## USER DATA:\n" ++ context ++ "\n\n## SEARCH QUERY: \n" ++ query

/-- One chat-completion request: a system prompt plus a user message. -/
structure ModelCall where
  system_prompt : String
  user_message : String
deriving DecidableEq

/-- Lines 41-55, `TokenTracker` state: a running total and the ordered
per-call token list. -/
structure TokenTracker where
  total_tokens : Int
  batch_tokens : List Int
deriving DecidableEq

/-- Lines 42-44, `TokenTracker.__init__`. -/
def TokenTracker.init : TokenTracker :=
  ⟨0, []⟩

/-- Lines 46-48, `TokenTracker.add_tokens`. -/
def TokenTracker.add_tokens (t : TokenTracker) (tokens : Int) : TokenTracker :=
  ⟨t.total_tokens + tokens, t.batch_tokens ++ [tokens]⟩

/-- The dictionary returned by `get_summary` (lines 50-55). -/
structure TokenSummary where
  total_tokens : Int
  batch_count : Nat
  batch_tokens : List Int
deriving DecidableEq

/-- Lines 50-55, `TokenTracker.get_summary`. -/
def TokenTracker.get_summary (t : TokenTracker) : TokenSummary :=
  ⟨t.total_tokens, t.batch_tokens.length, t.batch_tokens⟩

/-- Invariant tying the tracker fields together: the running total is the sum
of the recorded per-call tokens, and the summary's `batch_count` is the
length of the per-call list. -/
def TokenTracker.invariant (t : TokenTracker) : Prop :=
  t.total_tokens = t.batch_tokens.sum ∧ t.get_summary.batch_count = t.batch_tokens.length

/-- Run a sequence of `add_tokens` calls from a given state. -/
def apply_adds (l : List Int) (t : TokenTracker) : TokenTracker :=
  l.foldl TokenTracker.add_tokens t

/-- The `token_usage` dictionary inside a response's metadata; the
`total_tokens` key may be absent. -/
structure TokenUsageDict where
  total_tokens : Option Int
deriving DecidableEq

/-- A model response as `generate_response` reads it: its text content and
the optional `token_usage` entry of `response_metadata` (the whole entry may
be absent). -/
structure ModelResponse where
  content : String
  token_usage : Option TokenUsageDict
deriving DecidableEq

/-- Line 98: `response.response_metadata.get('token_usage', {}).get('total_tokens', 0)`.
A missing `token_usage` dict behaves as `{}`, whose `get` returns the
default 0; a present dict missing `total_tokens` also yields 0. -/
def get_total_tokens (r : ModelResponse) : Int :=
  match r.token_usage with
  | none => 0
  | some u => u.total_tokens.getD 0

/-- Lines 91-105, `generate_response`, as a state transition on the tracker:
it records the extracted token count and returns the response content. -/
def generate_response (tracker : TokenTracker) (response : ModelResponse) :
    TokenTracker × String :=
  let token_usage := get_total_tokens response
  (tracker.add_tokens token_usage, response.content)

/-- Line 141: `[res for res in batch_result if res.strip() != 'NO_MATCHES_FOUND']`. -/
def filter_results (batch_result : List String) : List String :=
  batch_result.filter (fun res => pyStrip res != "NO_MATCHES_FOUND")

/-- Outcome of the aggregation stage: either one synthesis model call or the
`No users found matching the search criteria.` reporting path. -/
inductive AggOutcome where
  | synthesis (call : ModelCall)
  | noUsersFound
deriving DecidableEq

/-- Lines 141-155: filter the batch results; if any remain, join them with a
blank line and issue the one final synthesis call (lines 143-152), otherwise
take the `No users found` branch (lines 154-155). -/
def aggregate_results (user_question : String) (batch_result : List String) :
    AggOutcome :=
  let filtered_results := filter_results batch_result
  if filtered_results ≠ [] then
    let combined_results := String.intercalate "\n\n" filtered_results
    AggOutcome.synthesis
      ⟨FINAL_SYSTEM_PROMPT,
        "## SEARCH RESULTS:\n" ++ combined_results ++ "\n\n## ORIGINAL QUERY:\n" ++ user_question⟩
  else
    AggOutcome.noUsersFound

/-- Observable trace of one run of `main` (lines 108-161): whether the user
list was fetched, the batch-level calls issued, the aggregation outcome
(`none` when the search was skipped), and whether the usage summary was
printed. -/
structure RunTrace where
  fetched_users : Bool
  batch_calls : List ModelCall
  outcome : Option AggOutcome
  printed_summary : Bool
deriving DecidableEq

/-- Lines 108-161, `main`, over a raw query, the user-source contents and a
response oracle: the input is stripped (line 112) and an empty result skips
everything (line 113); otherwise the users are fetched, batched, searched
per batch, and aggregated, and the summary is printed. -/
def run_main (raw_input : String) (users : List UserRecord)
    (respond : ModelCall → String) : RunTrace :=
  let user_question := pyStrip raw_input
  if user_question ≠ "" then
    let batches := user_batches users batch_size
    let tasks := batches.map (fun user_batch =>
      ModelCall.mk BATCH_SYSTEM_PROMPT
        (format_user_prompt (join_context user_batch) user_question))
    let batch_result := tasks.map respond
    ⟨true, tasks, some (aggregate_results user_question batch_result), true⟩
  else
    ⟨false, [], none, false⟩

/-- `true` iff the string contains a literal double-quote character. -/
def contains_quote (s : String) : Bool :=
  s.data.contains '"'

/-! ## Helper lemmas about `pyRange`, `chunks` and `user_batches` -/

theorem pyRange_nil (start stop step : Nat) (h : ¬(start < stop ∧ 0 < step)) :
    pyRange start stop step = [] := by
  rw [pyRange]
  simp [h]

theorem pyRange_cons (start stop step : Nat) (h : start < stop) (hstep : 0 < step) :
    pyRange start stop step = start :: pyRange (start + step) stop step := by
  rw [pyRange]
  simp [h, hstep]

theorem pyRange_add (start stop step d : Nat) :
    pyRange (start + d) (stop + d) step = (pyRange start stop step).map (fun i => i + d) := by
  induction start, stop, step using pyRange.induct with
  | case1 start stop step h ih =>
    rw [pyRange_cons start stop step h.1 h.2, pyRange_cons (start + d) (stop + d) step (by omega) h.2]
    simp only [List.map_cons]
    rw [Nat.add_right_comm start d step, ih]
  | case2 start stop step h =>
    rw [pyRange_nil start stop step h, pyRange_nil (start + d) (stop + d) step (by omega)]
    simp

theorem chunks_nil (bs : Nat) : chunks bs ([] : List α) = [] := by
  rw [chunks]
  split <;> rfl

theorem chunks_cons (bs : Nat) (hbs : bs ≠ 0) (x : α) (xs : List α) :
    chunks bs (x :: xs) = (x :: xs).take bs :: chunks bs ((x :: xs).drop bs) := by
  rw [chunks]
  simp [hbs]

theorem chunks_eq_nil_iff (bs : Nat) (hbs : bs ≠ 0) (l : List α) :
    chunks bs l = [] ↔ l = [] := by
  cases l with
  | nil => simp [chunks_nil]
  | cons x xs => simp [chunks_cons bs hbs x xs]

theorem pyRange_from_bs (n bs : Nat) :
    pyRange bs n bs = (pyRange 0 (n - bs) bs).map (fun i => i + bs) := by
  by_cases h : bs < n
  · calc pyRange bs n bs = pyRange (0 + bs) ((n - bs) + bs) bs := by
          rw [Nat.zero_add, Nat.sub_add_cancel (Nat.le_of_lt h)]
    _ = (pyRange 0 (n - bs) bs).map (fun i => i + bs) := pyRange_add 0 (n - bs) bs bs
  · rw [pyRange_nil bs n bs (by omega), pyRange_nil 0 (n - bs) bs (by omega)]
    simp

theorem user_batches_eq_chunks (users : List α) (bs : Nat) (hbs : 0 < bs) :
    user_batches users bs = chunks bs users := by
  induction users using chunks.induct bs with
  | case1 l hl => omega
  | case2 hbs0 =>
    rw [chunks_nil, user_batches]
    rw [List.length_nil, pyRange_nil 0 0 bs (by omega)]
    rfl
  | case3 hbs0 x xs ih =>
    rw [chunks_cons bs (by omega) x xs, user_batches,
      pyRange_cons 0 (x :: xs).length bs (by simp) hbs]
    simp only [List.map_cons, pySlice, Nat.zero_add, List.length_cons]
    congr 1
    rw [pyRange_from_bs (xs.length + 1) bs, List.map_map, ← ih, user_batches,
      List.length_drop]
    simp only [pySlice, List.length_cons]
    apply List.map_congr_left
    intro i _hi
    simp only [Function.comp]
    rw [List.drop_drop, Nat.add_comm bs i]

theorem chunks_flatten (bs : Nat) (hbs : 0 < bs) (l : List α) :
    (chunks bs l).flatten = l := by
  induction l using chunks.induct bs with
  | case1 l hl => omega
  | case2 _h0 => rw [chunks_nil]; rfl
  | case3 _h0 x xs ih =>
    rw [chunks_cons bs (by omega) x xs, List.flatten_cons, ih, List.take_append_drop]

theorem chunks_length (bs : Nat) (hbs : 0 < bs) (l : List α) :
    (chunks bs l).length = (l.length + bs - 1) / bs := by
  induction l using chunks.induct bs with
  | case1 l hl => omega
  | case2 _h0 =>
    rw [chunks_nil]
    simp only [List.length_nil, Nat.zero_add]
    rw [Nat.div_eq_of_lt (show bs - 1 < bs by omega)]
  | case3 _h0 x xs ih =>
    rw [chunks_cons bs (by omega) x xs, List.length_cons, ih, List.length_drop]
    have hn : 1 ≤ (x :: xs).length := by simp
    have h4 : (x :: xs).length + bs - 1 = ((x :: xs).length - 1) + bs := by omega
    rw [h4, Nat.add_div_right _ hbs]
    by_cases hcase : bs ≤ (x :: xs).length
    · have h5 : (x :: xs).length - bs + bs - 1 = (x :: xs).length - 1 := by omega
      rw [h5]
    · have h5 : (x :: xs).length - bs + bs - 1 = bs - 1 := by omega
      rw [h5, Nat.div_eq_of_lt (show bs - 1 < bs by omega),
        Nat.div_eq_of_lt (show (x :: xs).length - 1 < bs by omega)]

theorem chunks_mem_length_le (bs : Nat) (hbs : 0 < bs) (l : List α) :
    ∀ b ∈ chunks bs l, b.length ≤ bs := by
  induction l using chunks.induct bs with
  | case1 l hl => omega
  | case2 _h0 => rw [chunks_nil]; intro b hb; cases hb
  | case3 _h0 x xs ih =>
    rw [chunks_cons bs (by omega) x xs]
    intro b hb
    rcases List.mem_cons.mp hb with hb | hb
    · subst hb
      rw [List.length_take]
      exact Nat.min_le_left _ _
    · exact ih b hb

theorem chunks_dropLast_length (bs : Nat) (hbs : 0 < bs) (l : List α) :
    ∀ b ∈ (chunks bs l).dropLast, b.length = bs := by
  induction l using chunks.induct bs with
  | case1 l hl => omega
  | case2 _h0 => rw [chunks_nil]; intro b hb; cases hb
  | case3 _h0 x xs ih =>
    rw [chunks_cons bs (by omega) x xs]
    by_cases hrest : chunks bs ((x :: xs).drop bs) = []
    · rw [hrest]
      intro b hb
      cases hb
    · rw [List.dropLast_cons_of_ne_nil hrest]
      intro b hb
      rcases List.mem_cons.mp hb with hb | hb
      · subst hb
        have hdrop : (x :: xs).drop bs ≠ [] := by
          intro hd
          exact hrest (by rw [hd, chunks_nil])
        have hlen : bs ≤ (x :: xs).length := by
          by_contra hcon
          exact hdrop (List.drop_eq_nil_of_le (by omega))
        rw [List.length_take]
        omega
      · exact ih b hb

/-- Claim C1: with batch size 100, the batching comprehension on line 121
produces `ceil(N/100)` batches, every batch except possibly the last has
exactly 100 records, no batch exceeds 100 records, and concatenating the
batches in order reproduces the input list exactly (no gaps, no overlaps). -/
theorem user_batches_partition (users : List α) :
    (user_batches users 100).length = (users.length + 100 - 1) / 100 ∧
    (∀ b ∈ (user_batches users 100).dropLast, b.length = 100) ∧
    (∀ b ∈ user_batches users 100, b.length ≤ 100) ∧
    (user_batches users 100).flatten = users := by
  rw [user_batches_eq_chunks users 100 (by omega)]
  exact ⟨chunks_length 100 (by omega) users, chunks_dropLast_length 100 (by omega) users,
    chunks_mem_length_le 100 (by omega) users, chunks_flatten 100 (by omega) users⟩

/-- Claim C2: the filter on line 141 keeps exactly the results whose stripped
text differs from the sentinel, in their original order (the output is a
sublist of the input), and on the three-element example exactly
`"Jane, age 30"` survives. -/
theorem filter_results_spec :
    (∀ results : List String, List.Sublist (filter_results results) results) ∧
    (∀ (results : List String) (r : String),
      r ∈ filter_results results ↔ r ∈ results ∧ pyStrip r ≠ "NO_MATCHES_FOUND") ∧
    filter_results ["NO_MATCHES_FOUND", "Jane, age 30", "  NO_MATCHES_FOUND  "]
      = ["Jane, age 30"] := by
  refine ⟨fun results => List.filter_sublist results, fun results r => ?_, by decide⟩
  simp [filter_results, List.mem_filter]

/-- Claim C3: when every batch result strips to the sentinel, the filtered
list is empty and the aggregation stage takes the `No users found` reporting
path, issuing no synthesis call. -/
theorem aggregate_results_all_sentinel (user_question : String) (batch_result : List String)
    (h : ∀ res ∈ batch_result, pyStrip res = "NO_MATCHES_FOUND") :
    aggregate_results user_question batch_result = AggOutcome.noUsersFound := by
  have hf : filter_results batch_result = [] := by
    rw [filter_results, List.filter_eq_nil_iff]
    intro a ha
    simp [h a ha]
  simp [aggregate_results, hf]

theorem aggregate_results_all_sentinel_witness :
    aggregate_results "any query" ["NO_MATCHES_FOUND", "  NO_MATCHES_FOUND  "]
      = AggOutcome.noUsersFound :=
  aggregate_results_all_sentinel "any query" ["NO_MATCHES_FOUND", "  NO_MATCHES_FOUND  "]
    (by decide)

/-- Claim C4: when at least one result survives the filter, the survivors are
joined in order with a blank-line separator and exactly one synthesis call is
issued, with the fixed final system prompt and a user message embedding the
joined results and the original query (lines 143-152). -/
theorem aggregate_results_synthesis (user_question : String) (batch_result : List String)
    (h : filter_results batch_result ≠ []) :
    aggregate_results user_question batch_result =
      AggOutcome.synthesis
        ⟨FINAL_SYSTEM_PROMPT,
          "## SEARCH RESULTS:\n" ++ String.intercalate "\n\n" (filter_results batch_result) ++
            "\n\n## ORIGINAL QUERY:\n" ++ user_question⟩ := by
  simp [aggregate_results, h]

set_option maxRecDepth 8000 in
theorem aggregate_results_synthesis_witness :
    aggregate_results "q" ["Jane"] =
      AggOutcome.synthesis
        ⟨FINAL_SYSTEM_PROMPT, "## SEARCH RESULTS:\nJane\n\n## ORIGINAL QUERY:\nq"⟩ :=
  (aggregate_results_synthesis "q" ["Jane"] (by decide)).trans (by decide)

/-- Claim C9: `add_tokens` appends the given count to the ordered per-call
list and increments the running total; `get_summary` returns the total, the
call count and the per-call list; `add_tokens 120` then `add_tokens 80` from
a fresh tracker yields total 200, batch count 2 and list `[120, 80]`. -/
theorem token_tracker_add_get_summary :
    (∀ (t : TokenTracker) (tokens : Int),
      (t.add_tokens tokens).total_tokens = t.total_tokens + tokens ∧
      (t.add_tokens tokens).batch_tokens = t.batch_tokens ++ [tokens]) ∧
    (∀ t : TokenTracker,
      t.get_summary = ⟨t.total_tokens, t.batch_tokens.length, t.batch_tokens⟩) ∧
    ((TokenTracker.init.add_tokens 120).add_tokens 80).get_summary = ⟨200, 2, [120, 80]⟩ :=
  ⟨fun _t _tokens => ⟨rfl, rfl⟩, fun _t => rfl, by decide⟩

/-- Claim C10: every tracker state reachable from a fresh tracker by
`add_tokens` calls satisfies the invariant (the total equals the sum of the
per-call list, and the summary's batch count is that list's length), and any
single `add_tokens` call preserves the invariant. -/
theorem token_tracker_invariant_reachable :
    (∀ l : List Int, (apply_adds l TokenTracker.init).invariant) ∧
    (∀ (t : TokenTracker) (tokens : Int), t.invariant → (t.add_tokens tokens).invariant) := by
  have hpres : ∀ (t : TokenTracker) (tokens : Int),
      t.invariant → (t.add_tokens tokens).invariant := by
    rintro t tokens ⟨h1, _h2⟩
    constructor
    · simp [TokenTracker.add_tokens, h1]
    · rfl
  have hgen : ∀ (l : List Int) (t : TokenTracker), t.invariant → (apply_adds l t).invariant := by
    intro l
    induction l with
    | nil => intro t ht; exact ht
    | cons x xs ih =>
      intro t ht
      simp only [apply_adds, List.foldl_cons]
      exact ih (t.add_tokens x) (hpres t x ht)
  exact ⟨fun l => hgen l TokenTracker.init ⟨rfl, rfl⟩, hpres⟩

theorem token_tracker_invariant_witness :
    TokenTracker.invariant (TokenTracker.add_tokens ⟨3, [3]⟩ 4) :=
  token_tracker_invariant_reachable.2 ⟨3, [3]⟩ 4 ⟨by decide, rfl⟩

/-- Claim C8: if the response metadata lacks the `token_usage` dict, or has
it without a `total_tokens` entry, `generate_response` records 0 tokens in
the tracker (line 98's chained `.get` defaults) instead of failing; the
`add_tokens` call itself is total, so no error is possible. -/
theorem generate_response_missing_usage (tracker : TokenTracker) (response : ModelResponse)
    (h : response.token_usage = none ∨
      ∃ u, response.token_usage = some u ∧ u.total_tokens = none) :
    (generate_response tracker response).1.batch_tokens = tracker.batch_tokens ++ [0] ∧
    (generate_response tracker response).1.total_tokens = tracker.total_tokens ∧
    (generate_response tracker response).1 = tracker.add_tokens 0 := by
  have h0 : get_total_tokens response = 0 := by
    rcases h with h | ⟨u, hu, ht⟩
    · rw [get_total_tokens, h]
    · rw [get_total_tokens, hu]
      simp [ht]
  have h1 : generate_response tracker response = (tracker.add_tokens 0, response.content) := by
    simp only [generate_response]
    rw [h0]
  rw [h1]
  refine ⟨rfl, ?_, rfl⟩
  simp [TokenTracker.add_tokens]

theorem generate_response_missing_usage_witness :
    (generate_response ⟨5, [5]⟩ ⟨"hi", none⟩).1.batch_tokens = [5] ++ [0] ∧
    (generate_response ⟨5, [5]⟩ ⟨"hi", none⟩).1.total_tokens = 5 ∧
    (generate_response ⟨5, [5]⟩ ⟨"hi", none⟩).1 = TokenTracker.add_tokens ⟨5, [5]⟩ 0 :=
  generate_response_missing_usage ⟨5, [5]⟩ ⟨"hi", none⟩ (Or.inl rfl)

/-! ## Helper lemmas about `join_context` -/

theorem foldl_append_user_lines (ctx : List UserRecord) (acc : List String) :
    ctx.foldl (fun lines user => lines ++ user_lines user) acc
      = acc ++ ctx.flatMap user_lines := by
  induction ctx generalizing acc with
  | nil => simp
  | cons u us ih =>
    simp only [List.foldl_cons, List.flatMap_cons, ih]
    rw [List.append_assoc]

theorem join_context_eq (ctx : List UserRecord) (h : ctx ≠ []) :
    join_context ctx = String.intercalate "\n" (ctx.flatMap user_lines) := by
  rw [join_context, if_neg (by simp [h]), foldl_append_user_lines, List.nil_append]

theorem mem_data_intercalate_go (c : Char) (sep : String) (as : List String) :
    ∀ acc : String, c ∈ (String.intercalate.go acc sep as).data →
      c ∈ acc.data ∨ c ∈ sep.data ∨ ∃ s ∈ as, c ∈ s.data := by
  induction as with
  | nil =>
    intro acc h
    exact Or.inl h
  | cons a as ih =>
    intro acc h
    rw [String.intercalate.go] at h
    rcases ih (acc ++ sep ++ a) h with h1 | h2 | h3
    · have hd : (acc ++ sep ++ a).data = acc.data ++ sep.data ++ a.data := by simp
      rw [hd] at h1
      simp only [List.mem_append] at h1
      rcases h1 with (h1 | h1) | h1
      · exact Or.inl h1
      · exact Or.inr (Or.inl h1)
      · exact Or.inr (Or.inr ⟨a, List.mem_cons_self a as, h1⟩)
    · exact Or.inr (Or.inl h2)
    · rcases h3 with ⟨s, hs, hcs⟩
      exact Or.inr (Or.inr ⟨s, List.mem_cons_of_mem a hs, hcs⟩)

theorem mem_data_intercalate (c : Char) (sep : String) (l : List String)
    (h : c ∈ (String.intercalate sep l).data) :
    c ∈ sep.data ∨ ∃ s ∈ l, c ∈ s.data := by
  cases l with
  | nil => cases h
  | cons a as =>
    rw [String.intercalate] at h
    rcases mem_data_intercalate_go c sep as a h with h1 | h2 | h3
    · exact Or.inr ⟨a, List.mem_cons_self a as, h1⟩
    · exact Or.inl h2
    · rcases h3 with ⟨s, hs, hcs⟩
      exact Or.inr ⟨s, List.mem_cons_of_mem a hs, hcs⟩

theorem contains_quote_iff (s : String) : contains_quote s = true ↔ '"' ∈ s.data := by
  rw [contains_quote]
  exact List.elem_iff

/-- Claim C5: `join_context` is a function of the batch alone; on the empty
batch it returns the fixed `No user data available.` sentinel, and on a
non-empty batch it returns exactly the per-record lines — one `User:` header
per record followed by one indented `key: value` line per field, in the
record's own key order — joined by newlines. -/
theorem join_context_spec :
    join_context [] = "No user data available." ∧
    ∀ ctx : List UserRecord, ctx ≠ [] →
      join_context ctx = String.intercalate "\n" (ctx.flatMap user_lines) :=
  ⟨by decide, join_context_eq⟩

theorem join_context_spec_witness :
    join_context [[("name", "John"), ("surname", "Doe")]]
      = "User:\n  name: John\n  surname: Doe" :=
  (join_context_spec.2 [[("name", "John"), ("surname", "Doe")]] (by decide)).trans (by decide)

/-- Claim C6 counterexample: a record value containing a literal quote makes
the formatter output contain a quote, so the claim fails as stated: the
formatter adds no quoting of its own but does not remove quote characters
already present in the data. -/
theorem join_context_quote_cex :
    contains_quote (join_context [[("note", "say \"hi\"")]]) = true := by
  decide

/-- Claim C6 (amended): for every batch whose field names and values are free
of literal quote characters, the formatter's output contains no literal quote
character — the formatter itself never introduces one, since it uses plain
indented text rather than quoted serialization. -/
theorem join_context_quote_free (ctx : List UserRecord)
    (h : ∀ user ∈ ctx, ∀ kv ∈ user,
      contains_quote kv.1 = false ∧ contains_quote kv.2 = false) :
    contains_quote (join_context ctx) = false := by
  by_cases hctx : ctx = []
  · subst hctx
    decide
  · rw [join_context_eq ctx hctx, ← Bool.not_eq_true, contains_quote_iff]
    intro hc
    rcases mem_data_intercalate '"' "\n" (ctx.flatMap user_lines) hc with h1 | ⟨s, hs, hcs⟩
    · exact absurd h1 (by decide)
    · rcases List.mem_flatMap.mp hs with ⟨user, huser, hlines⟩
      rw [user_lines] at hlines
      rcases List.mem_cons.mp hlines with rfl | hmap
      · exact absurd hcs (by decide)
      · rcases List.mem_map.mp hmap with ⟨kv, hkv, rfl⟩
        have hdata : ("  " ++ kv.1 ++ ": " ++ kv.2).data
            = "  ".data ++ kv.1.data ++ ": ".data ++ kv.2.data := by simp
        rw [hdata] at hcs
        simp only [List.mem_append] at hcs
        rcases h user huser kv hkv with ⟨hk, hv⟩
        rw [← Bool.not_eq_true, contains_quote_iff] at hk hv
        rcases hcs with ((hcs | hcs) | hcs) | hcs
        · exact absurd hcs (by decide)
        · exact hk hcs
        · exact absurd hcs (by decide)
        · exact hv hcs

theorem join_context_quote_free_witness :
    contains_quote (join_context [[("name", "John"), ("hobby", "travel")]]) = false :=
  join_context_quote_free [[("name", "John"), ("hobby", "travel")]] (by decide)

/-- Claim C7: when the operator's input strips to the empty string, `main`
silently skips everything (line 113): no user fetch, no batch call, no
aggregation outcome, no usage summary, and no error. -/
theorem run_main_blank_query (raw_input : String) (users : List UserRecord)
    (respond : ModelCall → String) (h : pyStrip raw_input = "") :
    run_main raw_input users respond = ⟨false, [], none, false⟩ := by
  rw [run_main]
  simp [h]

theorem run_main_blank_query_witness :
    run_main "   " [[("name", "John")]] (fun _ => "some response")
      = ⟨false, [], none, false⟩ :=
  run_main_blank_query "   " [[("name", "John")]] (fun _ => "some response") (by decide)

end NoGrounding
